import Mathlib

/-!
Shallow embedding of the quota-monitor logic of `src/background.js`
(Mailbox Full Alert).  JavaScript numbers are modelled as rationals;
missing or non-numeric values are modelled with `Option`.  The external
browser surfaces (notifications, badge, storage, alarms) are modelled as
explicit state and event traces produced by the pass.
-/

/-- A Thunderbird account as returned by `browser.accounts.list()`:
its stable id and display name (`acc.name`; an empty string models a
falsy name, in which case the code falls back to `acc.id`). -/
structure Account where
  id : String
  name : String
deriving DecidableEq

/-- Raw per-account configuration as stored in `storage.local.perAccount`.
`none` fields model missing (or, for numeric fields, non-numeric /
non-finite) stored values. -/
structure RawConf where
  active : Option Bool := none
  limitBytes : Option ℚ := none
  thresholdPct : Option ℚ := none
deriving DecidableEq

/-- Constant `MFA_DEFAULT_THRESHOLD_PCT = 80` from background.js. -/
def MFA_DEFAULT_THRESHOLD_PCT : ℚ := 80

/-- Constant `MFA_DEFAULT_CHECK_INTERVAL_MIN = 360` from background.js. -/
def MFA_DEFAULT_CHECK_INTERVAL_MIN : ℚ := 360

/-- Source: `let active = conf.active !== false;` — default active; a missing
config object (`perAccount[acc.id] || {}`) also yields `true`. -/
def confActive (conf : Option RawConf) : Bool :=
  match conf with
  | none => true
  | some c =>
    match c.active with
    | some false => false
    | _ => true

/-- Source: `let limit = Number(conf.limitBytes || 0);` — missing or non-numeric
limit becomes 0. -/
def confLimit (conf : Option RawConf) : ℚ :=
  match conf with
  | none => 0
  | some c => c.limitBytes.getD 0

/-- Source: `let threshold = Number.isFinite(conf.thresholdPct) ? conf.thresholdPct
: MFA_DEFAULT_THRESHOLD_PCT;` -/
def confThreshold (conf : Option RawConf) : ℚ :=
  match conf with
  | none => MFA_DEFAULT_THRESHOLD_PCT
  | some c => c.thresholdPct.getD MFA_DEFAULT_THRESHOLD_PCT

/-- Source: `let pctUsed = (used / limit) * 100;` for the account `id`. -/
def pctOf (perAccount : String → Option RawConf) (id : String) (used : ℚ) : ℚ :=
  used / confLimit (perAccount id) * 100

/-- Source: `Math.round(pctUsed * 10) / 10` — JavaScript `Math.round` is
`⌊x + 1/2⌋`, which is exactly Mathlib's `round` on ℚ. -/
def roundTo1 (x : ℚ) : ℚ :=
  (round (x * 10) : ℤ) / 10

/-- Source: `acc.name || acc.id` — fall back to the id when the name is falsy. -/
def displayName (acc : Account) : String :=
  if acc.name = "" then acc.id else acc.name

/-- The skip condition of the loop body:
`if (!active || !limit || limit <= 0)` (on rationals `!limit` is
`limit = 0`, subsumed by `limit ≤ 0`). -/
def skipConf (perAccount : String → Option RawConf) (id : String) : Prop :=
  confActive (perAccount id) = false ∨ confLimit (perAccount id) ≤ 0

instance (perAccount : String → Option RawConf) (id : String) :
    Decidable (skipConf perAccount id) := by
  unfold skipConf; infer_instance

/-- Trace of what one loop iteration of `checkAllAccounts` did for one
account.  `skipCleared`: the inactive / no-limit branch (notification
cleared, NotifyState reset to 0).  `enumFailed`: `sumAccountBytes` threw.
`processed`: the account reached the usage computation; `notified`
records whether `notify(...)` was called, `cleared` whether
`clearNotification(...)` was called (the `pctUsed < threshold` branch),
`storedPct` the NotifyState value persisted at the end of the step. -/
inductive Event where
  | skipCleared (id : String)
  | enumFailed (id : String)
  | processed (id : String) (name : String) (pctUsed lastPct threshold : ℚ)
      (notified cleared : Bool) (storedPct : ℚ)
deriving DecidableEq

/-- Accumulated state of one `checkAllAccounts` pass: the two badge
accumulator variables, the NotifyState storage (keyed by account id —
the storage key is the injective `'MFA_lastNotifiedPct_' + id`, so we key
by `id` directly; `browser.storage.local.get({[key]: 0})` defaults to 0,
so the state is a total function), and the event trace. -/
structure PassAcc where
  topBadgePercent : ℤ
  topBadgeAccountName : Option String
  notifyState : String → ℚ
  events : List Event

/-- One iteration of the `for (let acc of accounts)` loop in
`checkAllAccounts` (background.js lines 148–193), minus the
`onlyAccountId` filter which lives in the loop itself. -/
def checkAccount (forceNotify : Bool) (perAccount : String → Option RawConf)
    (usage : String → Option ℚ) (s : PassAcc) (acc : Account) : PassAcc :=
  if skipConf perAccount acc.id then
    -- clear stale notification, reset lastPct to 0, continue
    { s with
      notifyState := fun k => if k = acc.id then 0 else s.notifyState k,
      events := s.events ++ [Event.skipCleared acc.id] }
  else
    match usage acc.id with
    | none =>
      -- summation failed: log and continue
      { s with events := s.events ++ [Event.enumFailed acc.id] }
    | some used =>
      let pctUsed : ℚ := pctOf perAccount acc.id used
      let lastPct : ℚ := s.notifyState acc.id
      let threshold : ℚ := confThreshold (perAccount acc.id)
      let crossedUp : Bool := decide (threshold ≤ pctUsed) && decide (lastPct < threshold)
      let clearedNow : Bool := decide (pctUsed < threshold)
      let floored : ℤ := ⌊pctUsed⌋
      let bump : Prop := threshold ≤ pctUsed ∧ s.topBadgePercent < floored
      let notified : Bool := crossedUp || (forceNotify && decide (threshold ≤ pctUsed))
      let storePct : ℚ := roundTo1 pctUsed
      { topBadgePercent := if bump then floored else s.topBadgePercent,
        topBadgeAccountName := if bump then some (displayName acc) else s.topBadgeAccountName,
        notifyState := fun k => if k = acc.id then storePct else s.notifyState k,
        events := s.events ++
          [Event.processed acc.id (displayName acc) pctUsed lastPct threshold
            notified clearedNow storePct] }

/-- Source: `if (onlyAccountId && acc.id !== onlyAccountId) continue;` —
`onlyAccountId` is `msg.accountId || null`, so `none` models both the
null and falsy cases. -/
def inScope (onlyAccountId : Option String) (acc : Account) : Bool :=
  match onlyAccountId with
  | none => true
  | some target => decide (acc.id = target)

/-- The account loop of `checkAllAccounts`. -/
def checkAccountsLoop (forceNotify : Bool) (onlyAccountId : Option String)
    (perAccount : String → Option RawConf) (usage : String → Option ℚ) :
    List Account → PassAcc → PassAcc
  | [], s => s
  | acc :: rest, s =>
    if inScope onlyAccountId acc then
      checkAccountsLoop forceNotify onlyAccountId perAccount usage rest
        (checkAccount forceNotify perAccount usage s acc)
    else
      checkAccountsLoop forceNotify onlyAccountId perAccount usage rest s

/-- Source: `topBadgeAccountName = null; topBadgePercent = -1;` before the loop. -/
def initPass (st : String → ℚ) : PassAcc :=
  { topBadgePercent := -1, topBadgeAccountName := none, notifyState := st, events := [] }

/-- One full `checkAllAccounts({forceNotify, onlyAccountId})` pass.
`usage id` is the result of `sumAccountBytes(id)` (`none`: it threw),
`st0` the NotifyState storage contents at the start of the pass. -/
def checkAllAccounts (forceNotify : Bool) (onlyAccountId : Option String)
    (perAccount : String → Option RawConf) (usage : String → Option ℚ)
    (accounts : List Account) (st0 : String → ℚ) : PassAcc :=
  checkAccountsLoop forceNotify onlyAccountId perAccount usage accounts (initPass st0)

/-- Source: `browser.i18n.getMessage('extShortName') || 'MFA'`. -/
def defaultTitle (extShortName : String) : String :=
  if extShortName = "" then "MFA" else extShortName

/-- Function `setBadge(percent, accountName)` (background.js lines 123–132):
returns the (badge text, tooltip title) pair it installs.  Note the badge
text is `` `${percent}%` `` — the number followed by a percent sign. -/
def setBadge (extShortName : String) (percent : Option ℤ) (accountName : Option String) :
    String × String :=
  match percent with
  | some p =>
    (toString p ++ "%",
      match accountName with
      | some n => if n = "" then defaultTitle extShortName else n
      | none => defaultTitle extShortName)
  | none => ("", defaultTitle extShortName)

/-- Source: `setBadge(topBadgePercent >= 0 ? topBadgePercent : null,
topBadgeAccountName)` — the final badge of a pass. -/
def passBadge (extShortName : String) (s : PassAcc) : String × String :=
  setBadge extShortName
    (if 0 ≤ s.topBadgePercent then some s.topBadgePercent else none)
    s.topBadgeAccountName

/-- Whether an event records an emitted notification. -/
def isNotifyEvent : Event → Bool
  | Event.processed _ _ _ _ _ notified _ _ => notified
  | _ => false

/-- Number of notifications emitted in a trace. -/
def notifyCount (l : List Event) : Nat :=
  (l.filter isNotifyEvent).length

/-- Whether a processed event was at/above its threshold. -/
def overEvt : Event → Bool
  | Event.processed _ _ pctUsed _ threshold _ _ _ => decide (threshold ≤ pctUsed)
  | _ => false

/-- The floored percentage of a processed event (`Math.floor(pctUsed)`). -/
def evtFloor : Event → ℤ
  | Event.processed _ _ pctUsed _ _ _ _ _ => ⌊pctUsed⌋
  | _ => 0

/-- The display name recorded in a processed event. -/
def evtName : Event → String
  | Event.processed _ name _ _ _ _ _ _ => name
  | _ => ""

/-- A message as seen by `sumFolderMessagesSize`: `size` is `none` when
the `size` field is missing or not a number (`typeof msg.size ===
'number'` fails). -/
structure Message where
  size : Option ℚ
deriving DecidableEq

/-- The inner `for (let msg of page.messages)` loop: add `msg.size` to
the running total only when it is a number. -/
def addPageSizes (total : ℚ) (msgs : List Message) : ℚ :=
  msgs.foldl
    (fun t m =>
      match m.size with
      | some sz => t + sz
      | none => t)
    total

/-- Function `sumFolderMessagesSize(folder)` over the paginated listing, modelled
as the list of pages produced by `messages.list` /
`messages.continueList` (the last page has no continuation id). -/
def sumFolderMessagesSize (pages : List (List Message)) : ℚ :=
  sumPages 0 pages
where
  sumPages (total : ℚ) : List (List Message) → ℚ
    | [] => total
    | pg :: rest => sumPages (addPageSizes total pg) rest

/-- An operation on the `browser.alarms` facility. -/
inductive AlarmEvent where
  | clear (name : String)
  | create (name : String) (periodInMinutes : ℤ)
deriving DecidableEq

/-- Function `getGlobalIntervalMin()`: `Number.isFinite(val) ? val :
MFA_DEFAULT_CHECK_INTERVAL_MIN` — a stored value that is not a finite
number (modelled `none`) falls back to the 360-minute default. -/
def getGlobalIntervalMin (stored : Option ℚ) : ℚ :=
  stored.getD MFA_DEFAULT_CHECK_INTERVAL_MIN

/-- Function `scheduleChecksFromSettings()` (background.js lines 235–248), as the
sequence of alarm operations it performs: always clear `'quota-check'`
first; then `minutes = Math.max(0, Math.floor(Number(minutesRaw) || 0))`;
if 0, stop; else create a periodic alarm with
`period = Math.max(1, minutes)`. -/
def scheduleChecksFromSettings (stored : Option ℚ) : List AlarmEvent :=
  if max 0 ⌊getGlobalIntervalMin stored⌋ = 0 then
    [AlarmEvent.clear "quota-check"]
  else
    [AlarmEvent.clear "quota-check",
     AlarmEvent.create "quota-check" (max 1 (max 0 ⌊getGlobalIntervalMin stored⌋))]

/-- Whether an alarm operation creates a timer. -/
def isCreateEvt : AlarmEvent → Bool
  | AlarmEvent.create _ _ => true
  | _ => false

/-- The rising-edge notification law for a single processed event:
notify exactly on an upward threshold crossing, or on a forced pass while
still at/above threshold. -/
def notifyLaw (force : Bool) : Event → Prop
  | Event.processed _ _ pctUsed lastPct threshold notified _ _ =>
      notified = true ↔
        ((threshold ≤ pctUsed ∧ lastPct < threshold) ∨ (force = true ∧ threshold ≤ pctUsed))
  | _ => True

/-- Invariant tying the badge accumulator to the trace: either nothing
has been at/above threshold yet (accumulator untouched), or the
accumulator holds the maximum floored percentage over all at/above
threshold events together with the matching account name. -/
def badgeInv (s : PassAcc) : Prop :=
  (s.topBadgePercent = -1 ∧ s.topBadgeAccountName = none ∧
    ∀ e ∈ s.events, overEvt e = false)
  ∨ (0 ≤ s.topBadgePercent
    ∧ (∃ e ∈ s.events, overEvt e = true ∧ evtFloor e = s.topBadgePercent ∧
        s.topBadgeAccountName = some (evtName e))
    ∧ ∀ e ∈ s.events, overEvt e = true → evtFloor e ≤ s.topBadgePercent)

/-! ## Basic lemmas about one loop iteration -/

theorem checkAccount_skip (f : Bool) (per : String → Option RawConf)
    (u : String → Option ℚ) (s : PassAcc) (acc : Account)
    (h : skipConf per acc.id) :
    checkAccount f per u s acc =
      { s with
        notifyState := fun k => if k = acc.id then 0 else s.notifyState k,
        events := s.events ++ [Event.skipCleared acc.id] } := by
  unfold checkAccount
  rw [if_pos h]

theorem checkAccount_fail (f : Bool) (per : String → Option RawConf)
    (u : String → Option ℚ) (s : PassAcc) (acc : Account)
    (h : ¬ skipConf per acc.id) (hu : u acc.id = none) :
    checkAccount f per u s acc = { s with events := s.events ++ [Event.enumFailed acc.id] } := by
  unfold checkAccount
  rw [if_neg h, hu]

theorem checkAccount_processed (f : Bool) (per : String → Option RawConf)
    (u : String → Option ℚ) (s : PassAcc) (acc : Account) (used : ℚ)
    (h : ¬ skipConf per acc.id) (hu : u acc.id = some used) :
    checkAccount f per u s acc =
      { topBadgePercent :=
          if confThreshold (per acc.id) ≤ pctOf per acc.id used ∧
              s.topBadgePercent < ⌊pctOf per acc.id used⌋
          then ⌊pctOf per acc.id used⌋ else s.topBadgePercent,
        topBadgeAccountName :=
          if confThreshold (per acc.id) ≤ pctOf per acc.id used ∧
              s.topBadgePercent < ⌊pctOf per acc.id used⌋
          then some (displayName acc) else s.topBadgeAccountName,
        notifyState := fun k =>
          if k = acc.id then roundTo1 (pctOf per acc.id used) else s.notifyState k,
        events := s.events ++
          [Event.processed acc.id (displayName acc) (pctOf per acc.id used)
            (s.notifyState acc.id) (confThreshold (per acc.id))
            ((decide (confThreshold (per acc.id) ≤ pctOf per acc.id used) &&
                decide (s.notifyState acc.id < confThreshold (per acc.id))) ||
              (f && decide (confThreshold (per acc.id) ≤ pctOf per acc.id used)))
            (decide (pctOf per acc.id used < confThreshold (per acc.id)))
            (roundTo1 (pctOf per acc.id used))] } := by
  unfold checkAccount
  rw [if_neg h, hu]

theorem checkAccount_events_shape (f : Bool) (per : String → Option RawConf)
    (u : String → Option ℚ) (s : PassAcc) (acc : Account) :
    ∃ e, (checkAccount f per u s acc).events = s.events ++ [e] := by
  unfold checkAccount
  split
  · exact ⟨_, rfl⟩
  · split
    · exact ⟨_, rfl⟩
    · exact ⟨_, rfl⟩

theorem mem_events_checkAccount (f : Bool) (per : String → Option RawConf)
    (u : String → Option ℚ) (s : PassAcc) (acc : Account) (e : Event)
    (he : e ∈ s.events) : e ∈ (checkAccount f per u s acc).events := by
  obtain ⟨e', h'⟩ := checkAccount_events_shape f per u s acc
  rw [h']
  exact List.mem_append_left _ he

theorem mem_events_loop (f : Bool) (only : Option String) (per : String → Option RawConf)
    (u : String → Option ℚ) (l : List Account) (s : PassAcc) (e : Event)
    (he : e ∈ s.events) : e ∈ (checkAccountsLoop f only per u l s).events := by
  induction l generalizing s with
  | nil => exact he
  | cons a rest ih =>
    unfold checkAccountsLoop
    split
    · exact ih _ (mem_events_checkAccount f per u s a e he)
    · exact ih _ he

theorem checkAccount_notifyState_ne (f : Bool) (per : String → Option RawConf)
    (u : String → Option ℚ) (s : PassAcc) (acc : Account) (k : String)
    (h : ¬ k = acc.id) :
    (checkAccount f per u s acc).notifyState k = s.notifyState k := by
  unfold checkAccount
  split
  · simp [h]
  · split
    · rfl
    · simp [h]

/-! ## The rising-edge notification law (C1) -/

theorem checkAccount_notifyLaw (f : Bool) (per : String → Option RawConf)
    (u : String → Option ℚ) (s : PassAcc) (acc : Account) :
    ∀ e ∈ (checkAccount f per u s acc).events, e ∈ s.events ∨ notifyLaw f e := by
  intro e he
  by_cases h : skipConf per acc.id
  · rw [checkAccount_skip f per u s acc h] at he
    rcases List.mem_append.mp he with h1 | h1
    · exact Or.inl h1
    · right
      rw [List.mem_singleton.mp h1]
      trivial
  · cases hu : u acc.id with
    | none =>
      rw [checkAccount_fail f per u s acc h hu] at he
      rcases List.mem_append.mp he with h1 | h1
      · exact Or.inl h1
      · right
        rw [List.mem_singleton.mp h1]
        trivial
    | some used =>
      rw [checkAccount_processed f per u s acc used h hu] at he
      rcases List.mem_append.mp he with h1 | h1
      · exact Or.inl h1
      · right
        rw [List.mem_singleton.mp h1]
        unfold notifyLaw
        simp only [Bool.or_eq_true, Bool.and_eq_true, decide_eq_true_eq]

theorem loop_notifyLaw (f : Bool) (only : Option String) (per : String → Option RawConf)
    (u : String → Option ℚ) (l : List Account) (s : PassAcc)
    (hs : ∀ e ∈ s.events, notifyLaw f e) :
    ∀ e ∈ (checkAccountsLoop f only per u l s).events, notifyLaw f e := by
  induction l generalizing s with
  | nil => exact hs
  | cons a rest ih =>
    unfold checkAccountsLoop
    split
    · refine ih _ ?_
      intro e' he'
      rcases checkAccount_notifyLaw f per u s a e' he' with h1 | h1
      · exact hs e' h1
      · exact h1
    · exact ih _ hs

/-- C1: in any monitor pass, a processed account (active, limit > 0,
usage enumeration succeeded) gets a notification iff it crossed the
threshold upward from the previously stored percentage, or the pass was
forced while it is at/above threshold; in particular never below
threshold. -/
theorem notify_rising_edge_law (force : Bool) (only : Option String)
    (per : String → Option RawConf) (u : String → Option ℚ)
    (accounts : List Account) (st0 : String → ℚ)
    (id name : String) (pctUsed lastPct threshold : ℚ)
    (notified cleared : Bool) (storedPct : ℚ)
    (he : Event.processed id name pctUsed lastPct threshold notified cleared storedPct
        ∈ (checkAllAccounts force only per u accounts st0).events) :
    (notified = true ↔
      ((threshold ≤ pctUsed ∧ lastPct < threshold) ∨ (force = true ∧ threshold ≤ pctUsed)))
    ∧ (pctUsed < threshold → notified = false) := by
  have hlaw := loop_notifyLaw force only per u accounts (initPass st0)
    (by intro e he'; exact absurd he' (List.not_mem_nil e)) _ he
  unfold notifyLaw at hlaw
  refine ⟨hlaw, ?_⟩
  intro hlt
  cases hnb : notified with
  | false => rfl
  | true =>
    exfalso
    rcases hlaw.mp hnb with h1 | h1
    · linarith [h1.1]
    · linarith [h1.2]

/-- Witness for C1 at a concrete input: one account with limit 1000,
used 850, default threshold 80, stored percentage 0. -/
theorem notify_rising_edge_law_witness :
    (true = true ↔
      (((80:ℚ) ≤ 85 ∧ (0:ℚ) < 80) ∨ (false = true ∧ (80:ℚ) ≤ 85)))
    ∧ ((85:ℚ) < 80 → true = false) :=
  notify_rising_edge_law false none (fun _ => some { limitBytes := some 1000 })
    (fun _ => some 850) [⟨"a1", "Acme"⟩] (fun _ => 0) "a1" "Acme" 85 0 80 true false 85
    (by
      norm_num [checkAllAccounts, checkAccountsLoop, checkAccount, initPass, inScope,
        skipConf, pctOf, confLimit, confThreshold, confActive, roundTo1, displayName,
        MFA_DEFAULT_THRESHOLD_PCT, round_eq]
      decide)

/-! ## Inactive / no-limit accounts (C2) -/

theorem checkAccount_preserves_zero (f : Bool) (per : String → Option RawConf)
    (u : String → Option ℚ) (s : PassAcc) (acc : Account) (k : String)
    (hk : skipConf per k) (h0 : s.notifyState k = 0) :
    (checkAccount f per u s acc).notifyState k = 0 := by
  by_cases hid : k = acc.id
  · subst hid
    rw [checkAccount_skip f per u s acc hk]
    simp
  · rw [checkAccount_notifyState_ne f per u s acc k hid]
    exact h0

theorem loop_preserves_zero (f : Bool) (only : Option String) (per : String → Option RawConf)
    (u : String → Option ℚ) (l : List Account) (s : PassAcc) (k : String)
    (hk : skipConf per k) (h0 : s.notifyState k = 0) :
    (checkAccountsLoop f only per u l s).notifyState k = 0 := by
  induction l generalizing s with
  | nil => exact h0
  | cons a rest ih =>
    unfold checkAccountsLoop
    split
    · exact ih _ (checkAccount_preserves_zero f per u s a k hk h0)
    · exact ih _ h0

theorem loop_skip_clears (f : Bool) (only : Option String) (per : String → Option RawConf)
    (u : String → Option ℚ) (l : List Account) (s : PassAcc) (acc : Account)
    (hmem : acc ∈ l) (hsc : inScope only acc = true) (hskip : skipConf per acc.id) :
    Event.skipCleared acc.id ∈ (checkAccountsLoop f only per u l s).events
    ∧ (checkAccountsLoop f only per u l s).notifyState acc.id = 0 := by
  induction l generalizing s with
  | nil => exact absurd hmem (List.not_mem_nil acc)
  | cons a rest ih =>
    rcases List.mem_cons.mp hmem with heq | hmem'
    · subst heq
      unfold checkAccountsLoop
      rw [if_pos hsc]
      constructor
      · apply mem_events_loop
        rw [checkAccount_skip f per u s acc hskip]
        simp
      · apply loop_preserves_zero f only per u rest _ acc.id hskip
        rw [checkAccount_skip f per u s acc hskip]
        simp
    · unfold checkAccountsLoop
      split
      · exact ih _ hmem'
      · exact ih _ hmem'

theorem checkAccount_usage_congr (f : Bool) (per : String → Option RawConf)
    (u u' : String → Option ℚ) (s : PassAcc) (acc : Account)
    (h : skipConf per acc.id ∨ u acc.id = u' acc.id) :
    checkAccount f per u s acc = checkAccount f per u' s acc := by
  rcases h with h | h
  · rw [checkAccount_skip f per u s acc h, checkAccount_skip f per u' s acc h]
  · unfold checkAccount
    rw [h]

theorem loop_usage_congr (f : Bool) (only : Option String) (per : String → Option RawConf)
    (u u' : String → Option ℚ) (h : ∀ id, skipConf per id ∨ u id = u' id)
    (l : List Account) (s : PassAcc) :
    checkAccountsLoop f only per u l s = checkAccountsLoop f only per u' l s := by
  induction l generalizing s with
  | nil => rfl
  | cons a rest ih =>
    unfold checkAccountsLoop
    split
    · rw [checkAccount_usage_congr f per u u' s a (h a.id)]
      exact ih _
    · exact ih _

/-- C2: an account that is inactive or has no positive limit is skipped
by the pass: its notification is cleared (the `skipCleared` event), its
NotifyState ends the pass at 0, and its usage is never computed — the
whole pass is unchanged under any replacement of the usage function on
skipped accounts. -/
theorem inactive_account_skip_clears (f : Bool) (only : Option String)
    (per : String → Option RawConf) (u : String → Option ℚ)
    (accounts : List Account) (st0 : String → ℚ) (acc : Account)
    (hacc : acc ∈ accounts) (hscope : inScope only acc = true)
    (hskip : confActive (per acc.id) = false ∨ confLimit (per acc.id) ≤ 0) :
    Event.skipCleared acc.id ∈ (checkAllAccounts f only per u accounts st0).events
    ∧ (checkAllAccounts f only per u accounts st0).notifyState acc.id = 0
    ∧ ∀ u' : String → Option ℚ, (∀ id, skipConf per id ∨ u id = u' id) →
        checkAllAccounts f only per u accounts st0
          = checkAllAccounts f only per u' accounts st0 := by
  have h := loop_skip_clears f only per u accounts (initPass st0) acc hacc hscope hskip
  exact ⟨h.1, h.2, fun u' hu => loop_usage_congr f only per u u' hu accounts (initPass st0)⟩

/-- Witness for C2: a single inactive account with stale NotifyState 5;
the pass clears it, resets the state, and is insensitive to replacing
the usage result (some 850 vs an enumeration failure). -/
theorem inactive_account_skip_clears_witness :
    Event.skipCleared "a1" ∈ (checkAllAccounts false none
      (fun _ => some { active := some false, limitBytes := some 1000 })
      (fun _ => some 850) [⟨"a1", "Acme"⟩] (fun _ => 5)).events
    ∧ (checkAllAccounts false none
      (fun _ => some { active := some false, limitBytes := some 1000 })
      (fun _ => some 850) [⟨"a1", "Acme"⟩] (fun _ => 5)).notifyState "a1" = 0
    ∧ checkAllAccounts false none
        (fun _ => some { active := some false, limitBytes := some 1000 })
        (fun _ => some 850) [⟨"a1", "Acme"⟩] (fun _ => 5)
      = checkAllAccounts false none
        (fun _ => some { active := some false, limitBytes := some 1000 })
        (fun _ => none) [⟨"a1", "Acme"⟩] (fun _ => 5) := by
  have h := inactive_account_skip_clears false none
    (fun _ => some { active := some false, limitBytes := some 1000 })
    (fun _ => some 850) [⟨"a1", "Acme"⟩] (fun _ => 5) ⟨"a1", "Acme"⟩
    (List.mem_singleton.mpr rfl) rfl (Or.inl rfl)
  exact ⟨h.1, h.2.1, h.2.2 (fun _ => none) (fun id => Or.inl (Or.inl rfl))⟩

/-! ## Eager clearing below threshold (C5) -/

/-- C5: a processed account whose pctUsed is strictly below its threshold
has its notification cleared in that same loop iteration (`cleared =
true` in its event), gets no notification, has its rounded percentage
persisted — and leaves both badge accumulators untouched. -/
theorem below_threshold_eager_clear (f : Bool) (per : String → Option RawConf)
    (u : String → Option ℚ) (s : PassAcc) (acc : Account) (used : ℚ)
    (hactive : confActive (per acc.id) = true) (hlimit : 0 < confLimit (per acc.id))
    (hu : u acc.id = some used)
    (hbelow : pctOf per acc.id used < confThreshold (per acc.id)) :
    checkAccount f per u s acc =
      { s with
        notifyState := fun k =>
          if k = acc.id then roundTo1 (pctOf per acc.id used) else s.notifyState k,
        events := s.events ++
          [Event.processed acc.id (displayName acc) (pctOf per acc.id used)
            (s.notifyState acc.id) (confThreshold (per acc.id)) false true
            (roundTo1 (pctOf per acc.id used))] } := by
  have hns : ¬ skipConf per acc.id := by
    intro hcon
    rcases hcon with hcon | hcon
    · rw [hactive] at hcon
      exact Bool.noConfusion hcon
    · linarith
  rw [checkAccount_processed f per u s acc used hns hu]
  have hc : ¬ (confThreshold (per acc.id) ≤ pctOf per acc.id used ∧
      s.topBadgePercent < ⌊pctOf per acc.id used⌋) := by
    intro hcon
    linarith [hcon.1]
  have h1 : decide (confThreshold (per acc.id) ≤ pctOf per acc.id used) = false :=
    decide_eq_false (not_le.mpr hbelow)
  have h2 : decide (pctOf per acc.id used < confThreshold (per acc.id)) = true :=
    decide_eq_true hbelow
  rw [if_neg hc, if_neg hc]
  simp [h1, h2]

/-- Witness for C5: limit 1000, used 700, threshold 80 → pct 70, below
threshold: event cleared, not notified, badge untouched, state 70. -/
theorem below_threshold_eager_clear_witness :
    (checkAccount false (fun _ => some { limitBytes := some 1000 })
        (fun _ => some 700) (initPass fun _ => 0) ⟨"a1", "Acme"⟩).events
      = [Event.processed "a1" "Acme" 70 0 80 false true 70]
    ∧ (checkAccount false (fun _ => some { limitBytes := some 1000 })
        (fun _ => some 700) (initPass fun _ => 0) ⟨"a1", "Acme"⟩).topBadgePercent = -1
    ∧ (checkAccount false (fun _ => some { limitBytes := some 1000 })
        (fun _ => some 700) (initPass fun _ => 0) ⟨"a1", "Acme"⟩).topBadgeAccountName = none
    ∧ (checkAccount false (fun _ => some { limitBytes := some 1000 })
        (fun _ => some 700) (initPass fun _ => 0) ⟨"a1", "Acme"⟩).notifyState "a1" = 70 := by
  have h := below_threshold_eager_clear false (fun _ => some { limitBytes := some 1000 })
    (fun _ => some 700) (initPass fun _ => 0) ⟨"a1", "Acme"⟩ 700
    rfl (by norm_num [confLimit]) rfl
    (by norm_num [pctOf, confLimit, confThreshold, MFA_DEFAULT_THRESHOLD_PCT])
  rw [h]
  refine ⟨?_, rfl, rfl, ?_⟩
  · norm_num [pctOf, confLimit, confThreshold, roundTo1, round_eq, displayName,
      MFA_DEFAULT_THRESHOLD_PCT, initPass]
    decide
  · norm_num [pctOf, confLimit, roundTo1, round_eq]

/-! ## Enumeration failure (C6) -/

/-- C6: when usage enumeration fails for one account, the pass records
only an `enumFailed` event for it — NotifyState, badge accumulators and
notifications are untouched — and continues with the remaining accounts. -/
theorem enum_failure_skips_account (f : Bool) (only : Option String)
    (per : String → Option RawConf) (u : String → Option ℚ)
    (acc : Account) (rest : List Account) (s : PassAcc)
    (hsc : inScope only acc = true)
    (hactive : confActive (per acc.id) = true) (hlimit : 0 < confLimit (per acc.id))
    (hu : u acc.id = none) :
    checkAccountsLoop f only per u (acc :: rest) s
      = checkAccountsLoop f only per u rest
          { s with events := s.events ++ [Event.enumFailed acc.id] } := by
  have hns : ¬ skipConf per acc.id := by
    intro hcon
    rcases hcon with hcon | hcon
    · rw [hactive] at hcon
      exact Bool.noConfusion hcon
    · linarith
  conv_lhs => rw [checkAccountsLoop]
  rw [if_pos hsc, checkAccount_fail f per u s acc hns hu]

/-- Witness for C6 at a concrete input: one configured account whose
enumeration fails; the loop continues on the empty remainder with state
untouched. -/
theorem enum_failure_skips_account_witness :
    checkAccountsLoop false none (fun _ => some { limitBytes := some 1000 })
        (fun _ => none) [⟨"a1", "Acme"⟩] (initPass fun _ => 3)
      = checkAccountsLoop false none (fun _ => some { limitBytes := some 1000 })
        (fun _ => none) []
        { initPass (fun _ => 3) with
          events := (initPass (fun _ => 3) : PassAcc).events ++ [Event.enumFailed "a1"] } :=
  enum_failure_skips_account false none (fun _ => some { limitBytes := some 1000 })
    (fun _ => none) ⟨"a1", "Acme"⟩ [] (initPass fun _ => 3)
    rfl rfl (by norm_num [confLimit]) rfl

/-! ## NotifyState is the one-decimal rounding of pctUsed (C8) -/

theorem roundTo1_tenth (x : ℚ) : ∃ n : ℤ, roundTo1 x = n / 10 :=
  ⟨round (x * 10), rfl⟩

theorem roundTo1_bounds (x : ℚ) : roundTo1 x - 1/20 ≤ x ∧ x < roundTo1 x + 1/20 := by
  unfold roundTo1
  rw [round_eq]
  have h1 : ((⌊x * 10 + 1/2⌋ : ℤ) : ℚ) ≤ x * 10 + 1/2 := Int.floor_le _
  have h2 : x * 10 + 1/2 < (⌊x * 10 + 1/2⌋ : ℤ) + 1 := Int.lt_floor_add_one _
  constructor
  · linarith
  · linarith

/-- C8: for every account that reaches the usage computation, the
NotifyState persisted at the end of its step is `pctUsed` rounded to one
decimal (half-up): it is a multiple of 1/10 within 1/20 of `pctUsed`
(lower bound inclusive), regardless of whether a notification fired. -/
theorem notifystate_rounded_tenth (f : Bool) (per : String → Option RawConf)
    (u : String → Option ℚ) (s : PassAcc) (acc : Account) (used : ℚ)
    (hactive : confActive (per acc.id) = true) (hlimit : 0 < confLimit (per acc.id))
    (hu : u acc.id = some used) :
    (checkAccount f per u s acc).notifyState acc.id = roundTo1 (pctOf per acc.id used)
    ∧ (∃ n : ℤ, (checkAccount f per u s acc).notifyState acc.id = n / 10)
    ∧ (checkAccount f per u s acc).notifyState acc.id - 1/20 ≤ pctOf per acc.id used
    ∧ pctOf per acc.id used < (checkAccount f per u s acc).notifyState acc.id + 1/20 := by
  have hns : ¬ skipConf per acc.id := by
    intro hcon
    rcases hcon with hcon | hcon
    · rw [hactive] at hcon
      exact Bool.noConfusion hcon
    · linarith
  have h := checkAccount_processed f per u s acc used hns hu
  have hst : (checkAccount f per u s acc).notifyState acc.id
      = roundTo1 (pctOf per acc.id used) := by
    rw [h]
    simp
  refine ⟨hst, ?_, ?_, ?_⟩
  · rw [hst]
    exact roundTo1_tenth _
  · rw [hst]
    exact (roundTo1_bounds _).1
  · rw [hst]
    exact (roundTo1_bounds _).2

/-- Witness for C8: limit 1000, used 852.5 → pctUsed 85.25, persisted
NotifyState 85.3 (with no notification condition assumed). -/
theorem notifystate_rounded_tenth_witness :
    (checkAccount false (fun _ => some { limitBytes := some 1000 })
        (fun _ => some (1705/2)) (initPass fun _ => 0) ⟨"a1", "Acme"⟩).notifyState "a1"
      = 853/10 := by
  have h := notifystate_rounded_tenth false (fun _ => some { limitBytes := some 1000 })
    (fun _ => some (1705/2)) (initPass fun _ => 0) ⟨"a1", "Acme"⟩ (1705/2)
    rfl (by norm_num [confLimit]) rfl
  rw [h.1]
  norm_num [roundTo1, pctOf, confLimit, round_eq]

/-! ## Idempotence of non-forced passes (C3) -/

theorem roundTo1_threshold_le (thr pct : ℚ) (n : ℤ) (hthr : thr = n / 10) (h : thr ≤ pct) :
    thr ≤ roundTo1 pct := by
  unfold roundTo1
  rw [round_eq]
  have hn : (n : ℚ) ≤ pct * 10 + 1/2 := by
    rw [hthr] at h
    linarith
  have hfl : n ≤ ⌊pct * 10 + 1/2⌋ := Int.le_floor.mpr hn
  have hq : (n : ℚ) ≤ ((⌊pct * 10 + 1/2⌋ : ℤ) : ℚ) := by exact_mod_cast hfl
  rw [hthr]
  linarith

theorem checkAccount_notifyState_self (f : Bool) (per : String → Option RawConf)
    (u : String → Option ℚ) (s : PassAcc) (acc : Account) (u0 : ℚ)
    (hns : ¬ skipConf per acc.id) (hu : u acc.id = some u0) :
    (checkAccount f per u s acc).notifyState acc.id = roundTo1 (pctOf per acc.id u0) := by
  rw [checkAccount_processed f per u s acc u0 hns hu]
  simp

theorem checkAccount_preserves_ge (f : Bool) (per : String → Option RawConf)
    (u : String → Option ℚ) (s : PassAcc) (acc : Account) (k : String) (u0 : ℚ) (n : ℤ)
    (hns : ¬ skipConf per k) (hu : u k = some u0)
    (hthr : confThreshold (per k) = n / 10)
    (hover : confThreshold (per k) ≤ pctOf per k u0)
    (hs : confThreshold (per k) ≤ s.notifyState k) :
    confThreshold (per k) ≤ (checkAccount f per u s acc).notifyState k := by
  by_cases hid : k = acc.id
  · subst hid
    rw [checkAccount_notifyState_self f per u s acc u0 hns hu]
    exact roundTo1_threshold_le _ _ n hthr hover
  · rw [checkAccount_notifyState_ne f per u s acc k hid]
    exact hs

theorem loop_preserves_ge (f : Bool) (only : Option String) (per : String → Option RawConf)
    (u : String → Option ℚ) (l : List Account) (s : PassAcc) (k : String) (u0 : ℚ) (n : ℤ)
    (hns : ¬ skipConf per k) (hu : u k = some u0)
    (hthr : confThreshold (per k) = n / 10)
    (hover : confThreshold (per k) ≤ pctOf per k u0)
    (hs : confThreshold (per k) ≤ s.notifyState k) :
    confThreshold (per k) ≤ (checkAccountsLoop f only per u l s).notifyState k := by
  induction l generalizing s with
  | nil => exact hs
  | cons a rest ih =>
    unfold checkAccountsLoop
    split
    · exact ih _ (checkAccount_preserves_ge f per u s a k u0 n hns hu hthr hover hs)
    · exact ih _ hs

theorem loop_establishes_ge (f : Bool) (only : Option String) (per : String → Option RawConf)
    (u : String → Option ℚ) (l : List Account) (s : PassAcc) (acc : Account) (u0 : ℚ) (n : ℤ)
    (hmem : acc ∈ l) (hsc : inScope only acc = true)
    (hns : ¬ skipConf per acc.id) (hu : u acc.id = some u0)
    (hthr : confThreshold (per acc.id) = n / 10)
    (hover : confThreshold (per acc.id) ≤ pctOf per acc.id u0) :
    confThreshold (per acc.id) ≤ (checkAccountsLoop f only per u l s).notifyState acc.id := by
  induction l generalizing s with
  | nil => exact absurd hmem (List.not_mem_nil acc)
  | cons a rest ih =>
    rcases List.mem_cons.mp hmem with heq | hmem'
    · subst heq
      unfold checkAccountsLoop
      rw [if_pos hsc]
      apply loop_preserves_ge f only per u rest _ acc.id u0 n hns hu hthr hover
      rw [checkAccount_notifyState_self f per u s acc u0 hns hu]
      exact roundTo1_threshold_le _ _ n hthr hover
    · unfold checkAccountsLoop
      split
      · exact ih _ hmem'
      · exact ih _ hmem'

theorem notifyCount_append (l : List Event) (e : Event) :
    notifyCount (l ++ [e]) = notifyCount l + (if isNotifyEvent e then 1 else 0) := by
  unfold notifyCount
  rw [List.filter_append, List.length_append, List.filter_singleton]
  by_cases h : isNotifyEvent e <;> simp [h]

theorem loop_no_notify (only : Option String) (per : String → Option RawConf)
    (u : String → Option ℚ)
    (hthr : ∀ id, ∃ n : ℤ, confThreshold (per id) = n / 10)
    (l : List Account) (s : PassAcc)
    (hinv : ∀ acc ∈ l, inScope only acc = true → ¬ skipConf per acc.id →
      ∀ u0, u acc.id = some u0 →
        confThreshold (per acc.id) ≤ pctOf per acc.id u0 →
        confThreshold (per acc.id) ≤ s.notifyState acc.id) :
    notifyCount (checkAccountsLoop false only per u l s).events = notifyCount s.events := by
  induction l generalizing s with
  | nil => rfl
  | cons a rest ih =>
    unfold checkAccountsLoop
    by_cases hsc : inScope only a = true
    · rw [if_pos hsc]
      by_cases hskip : skipConf per a.id
      · rw [checkAccount_skip false per u s a hskip]
        rw [ih _ ?_]
        · simp [notifyCount_append, isNotifyEvent]
        · intro acc hacc hsc' hns' u0 hu0 hover
          by_cases hid : acc.id = a.id
          · exact absurd (by rw [hid]; exact hskip) hns'
          · have : (if acc.id = a.id then (0:ℚ) else s.notifyState acc.id) = s.notifyState acc.id :=
              if_neg hid
            show confThreshold (per acc.id) ≤
              (if acc.id = a.id then (0:ℚ) else s.notifyState acc.id)
            rw [this]
            exact hinv acc (List.mem_cons_of_mem a hacc) hsc' hns' u0 hu0 hover
      · cases hu : u a.id with
        | none =>
          rw [checkAccount_fail false per u s a hskip hu]
          rw [ih _ ?_]
          · simp [notifyCount_append, isNotifyEvent]
          · intro acc hacc hsc' hns' u0 hu0 hover
            exact hinv acc (List.mem_cons_of_mem a hacc) hsc' hns' u0 hu0 hover
        | some u0 =>
          rw [checkAccount_processed false per u s a u0 hskip hu]
          rw [ih _ ?_]
          · rw [notifyCount_append]
            have hnot : ((decide (confThreshold (per a.id) ≤ pctOf per a.id u0) &&
                decide (s.notifyState a.id < confThreshold (per a.id))) ||
                (false && decide (confThreshold (per a.id) ≤ pctOf per a.id u0))) = false := by
              by_cases hover : confThreshold (per a.id) ≤ pctOf per a.id u0
              · have hlast := hinv a (List.mem_cons_self a rest) hsc hskip u0 hu hover
                simp [decide_eq_false (not_lt.mpr hlast)]
              · simp [decide_eq_false hover]
            simp only [isNotifyEvent]
            rw [hnot]
            simp
          · intro acc hacc hsc' hns' u0' hu0' hover'
            by_cases hid : acc.id = a.id
            · have hu0eq : u0' = u0 := by
                rw [hid] at hu0'
                rw [hu0'] at hu
                exact (Option.some.injEq _ _ ▸ hu).symm ▸ rfl
              show confThreshold (per acc.id) ≤
                (if acc.id = a.id then roundTo1 (pctOf per a.id u0) else s.notifyState acc.id)
              rw [if_pos hid, hid]
              obtain ⟨n, hn⟩ := hthr a.id
              apply roundTo1_threshold_le _ _ n hn
              rw [hid, hu0eq] at hover'
              exact hover'
            · show confThreshold (per acc.id) ≤
                (if acc.id = a.id then roundTo1 (pctOf per a.id u0) else s.notifyState acc.id)
              rw [if_neg hid]
              exact hinv acc (List.mem_cons_of_mem a hacc) hsc' hns' u0' hu0' hover'
    · rw [if_neg hsc]
      exact ih _ fun acc hacc => hinv acc (List.mem_cons_of_mem a hacc)

/-- C3 fails as stated: with threshold 80.04 (= 2001/25, a value beyond
one decimal, storable since any finite `thresholdPct` is accepted) and
usage pinned at exactly 80.04%, the persisted NotifyState 80.0 rounds
below the threshold again, so both of two consecutive non-forced passes
with unchanged usage notify — two notifications in total. -/
theorem fractional_threshold_renotify :
    notifyCount (checkAllAccounts false none
      (fun _ => some { limitBytes := some 2500, thresholdPct := some (2001/25) })
      (fun _ => some 2001) [⟨"a1", "A"⟩] (fun _ => 0)).events = 1
    ∧ notifyCount (checkAllAccounts false none
      (fun _ => some { limitBytes := some 2500, thresholdPct := some (2001/25) })
      (fun _ => some 2001) [⟨"a1", "A"⟩]
      (checkAllAccounts false none
        (fun _ => some { limitBytes := some 2500, thresholdPct := some (2001/25) })
        (fun _ => some 2001) [⟨"a1", "A"⟩] (fun _ => 0)).notifyState).events = 1 := by
  constructor <;>
    norm_num [checkAllAccounts, checkAccountsLoop, checkAccount, initPass, inScope,
      skipConf, pctOf, confLimit, confThreshold, confActive, roundTo1, displayName,
      MFA_DEFAULT_THRESHOLD_PCT, round_eq, notifyCount, isNotifyEvent]

/-- C3 amended: provided every account's effective threshold is a
multiple of 0.1 (in particular the UI-selectable integer thresholds
50/60/70/80/90/95 and the default 80), a second consecutive non-forced
pass with unchanged usage and configuration emits no notification. -/
theorem second_pass_no_renotify (only : Option String) (per : String → Option RawConf)
    (u : String → Option ℚ) (accounts : List Account) (st0 : String → ℚ)
    (hthr : ∀ id, ∃ n : ℤ, confThreshold (per id) = n / 10) :
    notifyCount (checkAllAccounts false only per u accounts
      (checkAllAccounts false only per u accounts st0).notifyState).events = 0 := by
  unfold checkAllAccounts
  rw [loop_no_notify only per u hthr accounts _ ?_]
  · rfl
  · intro acc hacc hsc hns u0 hu hover
    obtain ⟨n, hn⟩ := hthr acc.id
    show confThreshold (per acc.id) ≤
      (checkAccountsLoop false only per u accounts (initPass st0)).notifyState acc.id
    exact loop_establishes_ge false only per u accounts (initPass st0) acc u0 n
      hacc hsc hns hu hn hover

/-- Witness for the amended C3 at a concrete input: integer threshold
80, usage 85%: the first pass notifies, the second is silent. -/
theorem second_pass_no_renotify_witness :
    notifyCount (checkAllAccounts false none (fun _ => some { limitBytes := some 1000 })
      (fun _ => some 850) [⟨"a1", "Acme"⟩]
      (checkAllAccounts false none (fun _ => some { limitBytes := some 1000 })
        (fun _ => some 850) [⟨"a1", "Acme"⟩] (fun _ => 0)).notifyState).events = 0 :=
  second_pass_no_renotify none (fun _ => some { limitBytes := some 1000 })
    (fun _ => some 850) [⟨"a1", "Acme"⟩] (fun _ => 0)
    (fun _ => ⟨800, by norm_num [confThreshold, MFA_DEFAULT_THRESHOLD_PCT]⟩)

/-! ## Badge aggregation (C4) -/

theorem badgeInv_append (s : PassAcc) (ns : String → ℚ) (e : Event)
    (h : badgeInv s) (he : overEvt e = false) :
    badgeInv { topBadgePercent := s.topBadgePercent,
               topBadgeAccountName := s.topBadgeAccountName,
               notifyState := ns, events := s.events ++ [e] } := by
  rcases h with ⟨h1, h2, h3⟩ | ⟨h1, ⟨e0, he0, ho0, hf0, hn0⟩, h3⟩
  · left
    refine ⟨h1, h2, ?_⟩
    intro e' he'
    rcases List.mem_append.mp he' with h' | h'
    · exact h3 e' h'
    · rw [List.mem_singleton.mp h']
      exact he
  · right
    refine ⟨h1, ⟨e0, List.mem_append_left _ he0, ho0, hf0, hn0⟩, ?_⟩
    intro e' he' hov
    rcases List.mem_append.mp he' with h' | h'
    · exact h3 e' h' hov
    · rw [List.mem_singleton.mp h', he] at hov
      exact absurd hov Bool.noConfusion

theorem checkAccount_badgeInv (f : Bool) (per : String → Option RawConf)
    (u : String → Option ℚ) (s : PassAcc) (acc : Account)
    (hthr : 0 ≤ confThreshold (per acc.id))
    (hinv : badgeInv s) : badgeInv (checkAccount f per u s acc) := by
  by_cases hskip : skipConf per acc.id
  · rw [checkAccount_skip f per u s acc hskip]
    exact badgeInv_append s _ _ hinv rfl
  · cases hu : u acc.id with
    | none =>
      rw [checkAccount_fail f per u s acc hskip hu]
      exact badgeInv_append s _ _ hinv rfl
    | some used =>
      rw [checkAccount_processed f per u s acc used hskip hu]
      by_cases hover : confThreshold (per acc.id) ≤ pctOf per acc.id used
      · have hfl0 : (0:ℤ) ≤ ⌊pctOf per acc.id used⌋ :=
          Int.floor_nonneg.mpr (le_trans hthr hover)
        by_cases hlt : s.topBadgePercent < ⌊pctOf per acc.id used⌋
        · rw [if_pos ⟨hover, hlt⟩, if_pos ⟨hover, hlt⟩]
          right
          refine ⟨hfl0, ?_, ?_⟩
          · refine ⟨Event.processed acc.id (displayName acc) (pctOf per acc.id used)
              (s.notifyState acc.id) (confThreshold (per acc.id))
              ((decide (confThreshold (per acc.id) ≤ pctOf per acc.id used) &&
                  decide (s.notifyState acc.id < confThreshold (per acc.id))) ||
                (f && decide (confThreshold (per acc.id) ≤ pctOf per acc.id used)))
              (decide (pctOf per acc.id used < confThreshold (per acc.id)))
              (roundTo1 (pctOf per acc.id used)), ?_, ?_, ?_, ?_⟩
            · exact List.mem_append_right _ (List.mem_singleton.mpr rfl)
            · exact decide_eq_true hover
            · rfl
            · rfl
          · intro e' he' hov
            rcases List.mem_append.mp he' with h' | h'
            · rcases hinv with ⟨h1, _, h3⟩ | ⟨_, _, h3⟩
              · rw [h3 e' h'] at hov
                exact absurd hov Bool.noConfusion
              · exact le_of_lt (lt_of_le_of_lt (h3 e' h' hov) hlt)
            · rw [List.mem_singleton.mp h']
              exact le_refl _
        · have hbump : ¬ (confThreshold (per acc.id) ≤ pctOf per acc.id used ∧
              s.topBadgePercent < ⌊pctOf per acc.id used⌋) := fun hcon => hlt hcon.2
          rw [if_neg hbump, if_neg hbump]
          rcases hinv with ⟨h1, h2, h3⟩ | ⟨h1, ⟨e0, he0, ho0, hf0, hn0⟩, h3⟩
          · exfalso
            rw [h1] at hlt
            exact hlt (lt_of_lt_of_le (by norm_num) hfl0)
          · right
            refine ⟨h1, ⟨e0, List.mem_append_left _ he0, ho0, hf0, hn0⟩, ?_⟩
            intro e' he' hov
            rcases List.mem_append.mp he' with h' | h'
            · exact h3 e' h' hov
            · rw [List.mem_singleton.mp h']
              show ⌊pctOf per acc.id used⌋ ≤ s.topBadgePercent
              exact not_lt.mp hlt
      · have hbump : ¬ (confThreshold (per acc.id) ≤ pctOf per acc.id used ∧
            s.topBadgePercent < ⌊pctOf per acc.id used⌋) := fun hcon => hover hcon.1
        rw [if_neg hbump, if_neg hbump]
        exact badgeInv_append s _ _ hinv (by simp [overEvt, hover])

theorem loop_badgeInv (f : Bool) (only : Option String) (per : String → Option RawConf)
    (u : String → Option ℚ) (l : List Account) (s : PassAcc)
    (hthr : ∀ id, 0 ≤ confThreshold (per id))
    (hinv : badgeInv s) : badgeInv (checkAccountsLoop f only per u l s) := by
  induction l generalizing s with
  | nil => exact hinv
  | cons a rest ih =>
    unfold checkAccountsLoop
    split
    · exact ih _ (checkAccount_badgeInv f per u s a (hthr a.id) hinv)
    · exact ih _ hinv

/-- C4 fails as stated in two ways.  First, the badge text is not the
bare floored percentage: `setBadge` renders `` `${percent}%` ``, so an
account at 85% yields badge text `"85%"`, not `"85"`.  Second, an
account whose floored percentage is at/above threshold but ≤ -1 (possible
only with a negative threshold) never beats the initial accumulator -1,
so the badge stays empty although an account is over threshold. -/
theorem badge_text_shape_counterexample :
    (passBadge "MFA" (checkAllAccounts false none
        (fun _ => some { limitBytes := some 1000 })
        (fun _ => some 850) [⟨"a1", "Acme"⟩] (fun _ => 0))).1 = "85%"
    ∧ (passBadge "MFA" (checkAllAccounts false none
        (fun _ => some { limitBytes := some 1000 })
        (fun _ => some 850) [⟨"a1", "Acme"⟩] (fun _ => 0))).1 ≠ toString (85:ℤ)
    ∧ (checkAllAccounts false none
        (fun _ => some { limitBytes := some 100, thresholdPct := some (-100) })
        (fun _ => some (-50)) [⟨"n1", "N"⟩] (fun _ => 0)).events
      = [Event.processed "n1" "N" (-50) 0 (-100) false false (-50)]
    ∧ ((-100:ℚ) ≤ -50)
    ∧ passBadge "MFA" (checkAllAccounts false none
        (fun _ => some { limitBytes := some 100, thresholdPct := some (-100) })
        (fun _ => some (-50)) [⟨"n1", "N"⟩] (fun _ => 0)) = ("", "MFA") := by
  refine ⟨?_, ?_, ?_, by norm_num, ?_⟩ <;>
    (norm_num [checkAllAccounts, checkAccountsLoop, checkAccount, initPass, inScope,
      skipConf, pctOf, confLimit, confThreshold, confActive, roundTo1, displayName,
      MFA_DEFAULT_THRESHOLD_PCT, round_eq, passBadge, setBadge, defaultTitle]
     <;> decide)

/-- C4 amended: provided all configured thresholds are nonnegative (true
of every UI-selectable threshold and of the default 80), after a pass
with no at/above-threshold processed account the badge text is empty and
the tooltip is the default product name; and whenever some processed
account is at/above threshold, the badge text is the maximum floored
percentage over those accounts followed by a percent sign, and the
tooltip is the name of an account attaining that maximum. -/
theorem badge_worst_account (f : Bool) (only : Option String)
    (per : String → Option RawConf) (u : String → Option ℚ)
    (accounts : List Account) (st0 : String → ℚ) (ext : String)
    (hthr : ∀ id, 0 ≤ confThreshold (per id)) :
    ((∀ e ∈ (checkAllAccounts f only per u accounts st0).events, overEvt e = false) →
      passBadge ext (checkAllAccounts f only per u accounts st0) = ("", defaultTitle ext))
    ∧ (∀ e0 ∈ (checkAllAccounts f only per u accounts st0).events, overEvt e0 = true →
      ∃ e ∈ (checkAllAccounts f only per u accounts st0).events, overEvt e = true
        ∧ (∀ e' ∈ (checkAllAccounts f only per u accounts st0).events,
            overEvt e' = true → evtFloor e' ≤ evtFloor e)
        ∧ passBadge ext (checkAllAccounts f only per u accounts st0)
            = (toString (evtFloor e) ++ "%",
               if evtName e = "" then defaultTitle ext else evtName e)) := by
  have hinv : badgeInv (checkAllAccounts f only per u accounts st0) :=
    loop_badgeInv f only per u accounts (initPass st0) hthr
      (Or.inl ⟨rfl, rfl, fun e he => absurd he (List.not_mem_nil e)⟩)
  rcases hinv with ⟨h1, h2, h3⟩ | ⟨h1, ⟨e0, he0, ho0, hf0, hn0⟩, h3⟩
  · constructor
    · intro _
      unfold passBadge setBadge
      rw [h1, h2]
      norm_num
    · intro e0' he0' hov
      rw [h3 e0' he0'] at hov
      exact absurd hov Bool.noConfusion
  · constructor
    · intro hall
      rw [hall e0 he0] at ho0
      exact absurd ho0 Bool.noConfusion
    · intro e0' he0' hov'
      refine ⟨e0, he0, ho0, ?_, ?_⟩
      · intro e' he' hov
        rw [hf0]
        exact h3 e' he' hov
      · unfold passBadge setBadge
        rw [if_pos h1, hn0, hf0]

/-- Witness for the amended C4: one account at 85% with threshold 80
gives badge text "85%" and tooltip "Acme". -/
theorem badge_worst_account_witness :
    ∃ e ∈ (checkAllAccounts false none (fun _ => some { limitBytes := some 1000 })
        (fun _ => some 850) [⟨"a1", "Acme"⟩] (fun _ => 0)).events, overEvt e = true
      ∧ (∀ e' ∈ (checkAllAccounts false none (fun _ => some { limitBytes := some 1000 })
          (fun _ => some 850) [⟨"a1", "Acme"⟩] (fun _ => 0)).events,
          overEvt e' = true → evtFloor e' ≤ evtFloor e)
      ∧ passBadge "MFA" (checkAllAccounts false none (fun _ => some { limitBytes := some 1000 })
          (fun _ => some 850) [⟨"a1", "Acme"⟩] (fun _ => 0))
          = (toString (evtFloor e) ++ "%",
             if evtName e = "" then defaultTitle "MFA" else evtName e) :=
  (badge_worst_account false none (fun _ => some { limitBytes := some 1000 })
      (fun _ => some 850) [⟨"a1", "Acme"⟩] (fun _ => 0) "MFA"
      (fun _ => by norm_num [confThreshold, MFA_DEFAULT_THRESHOLD_PCT])).2
    (Event.processed "a1" "Acme" 85 0 80 true false 85)
    (by
      norm_num [checkAllAccounts, checkAccountsLoop, checkAccount, initPass, inScope,
        skipConf, pctOf, confLimit, confThreshold, confActive, roundTo1, displayName,
        MFA_DEFAULT_THRESHOLD_PCT, round_eq]
      decide)
    (by norm_num [overEvt])

/-! ## Scheduler re-arming (C7) -/

theorem floor_max_zero (v : ℚ) : ⌊max 0 v⌋ = max 0 ⌊v⌋ := by
  rcases le_total v 0 with h | h
  · rw [max_eq_left h]
    have hf : ⌊v⌋ ≤ 0 := by
      have := Int.floor_le_floor h
      simpa using this
    rw [max_eq_left hf]
    exact Int.floor_zero
  · rw [max_eq_right h]
    have hf : 0 ≤ ⌊v⌋ := Int.floor_nonneg.mpr h
    rw [max_eq_right hf]

/-- C7 fails for a non-numeric stored interval: `getGlobalIntervalMin`
replaces it with the 360-minute default before the scheduler floors it,
so a periodic timer of 360 minutes IS created, instead of the claimed
"no timer is created". -/
theorem nonnumeric_interval_creates_default_timer :
    scheduleChecksFromSettings none
      = [AlarmEvent.clear "quota-check", AlarmEvent.create "quota-check" 360]
    ∧ AlarmEvent.create "quota-check" 360 ∈ scheduleChecksFromSettings none := by
  have h : scheduleChecksFromSettings none
      = [AlarmEvent.clear "quota-check", AlarmEvent.create "quota-check" 360] := by
    norm_num [scheduleChecksFromSettings, getGlobalIntervalMin, MFA_DEFAULT_CHECK_INTERVAL_MIN]
  refine ⟨h, ?_⟩
  rw [h]
  simp

/-- C7 amended: re-arming always clears the quota-check timer first and
never creates more than one timer.  For a numeric stored value `v`:
if `⌊max 0 v⌋ = 0` (so `v = 0.5`, `v = 0`, or negative `v`) no timer is
created; if `⌊v⌋ ≥ 1` one periodic timer of `⌊v⌋` (= `max 1 ⌊v⌋`)
minutes is created.  A non-numeric stored value however falls back to
the default and arms a 360-minute timer. -/
theorem scheduler_rearm (stored : Option ℚ) :
    (scheduleChecksFromSettings stored).head? = some (AlarmEvent.clear "quota-check")
    ∧ (∀ v : ℚ, stored = some v → ⌊max 0 v⌋ = 0 →
        scheduleChecksFromSettings stored = [AlarmEvent.clear "quota-check"])
    ∧ (∀ v : ℚ, stored = some v → 1 ≤ ⌊v⌋ →
        scheduleChecksFromSettings stored
          = [AlarmEvent.clear "quota-check", AlarmEvent.create "quota-check" ⌊v⌋])
    ∧ (stored = none →
        scheduleChecksFromSettings stored
          = [AlarmEvent.clear "quota-check", AlarmEvent.create "quota-check" 360])
    ∧ (scheduleChecksFromSettings stored).countP isCreateEvt ≤ 1 := by
  refine ⟨?_, ?_, ?_, ?_, ?_⟩
  · unfold scheduleChecksFromSettings
    split <;> rfl
  · intro v hv h0
    subst hv
    rw [floor_max_zero] at h0
    unfold scheduleChecksFromSettings getGlobalIntervalMin
    rw [Option.getD_some, if_pos h0]
  · intro v hv h1
    subst hv
    have h0 : (0:ℤ) ≤ ⌊v⌋ := le_trans (by norm_num) h1
    unfold scheduleChecksFromSettings getGlobalIntervalMin
    rw [Option.getD_some, max_eq_right h0]
    rw [if_neg (by intro hcon; rw [hcon] at h1; exact absurd h1 (by norm_num))]
    rw [max_eq_right h1]
  · intro hv
    subst hv
    unfold scheduleChecksFromSettings getGlobalIntervalMin MFA_DEFAULT_CHECK_INTERVAL_MIN
    norm_num
  · unfold scheduleChecksFromSettings
    split <;> simp [List.countP_cons, isCreateEvt]

/-- Witness for the amended C7: storing 0.5 floors to 0 and disables;
storing 45 arms a 45-minute timer; both runs clear the prior timer
first. -/
theorem scheduler_rearm_witness :
    scheduleChecksFromSettings (some (1/2)) = [AlarmEvent.clear "quota-check"]
    ∧ scheduleChecksFromSettings (some 45)
        = [AlarmEvent.clear "quota-check", AlarmEvent.create "quota-check" 45] := by
  constructor
  · refine (scheduler_rearm (some (1/2))).2.1 (1/2) rfl ?_
    rw [max_eq_right (by norm_num : (0:ℚ) ≤ 1/2)]
    rw [Int.floor_eq_zero_iff.mpr]
    constructor <;> norm_num
  · have h := (scheduler_rearm (some 45)).2.2.1 45 rfl (by norm_num)
    rw [h]
    norm_num

/-! ## Folder message-size summation (C9) -/

theorem addPageSizes_eq (msgs : List Message) :
    ∀ total : ℚ, addPageSizes total msgs = total + (msgs.map fun m => m.size.getD 0).sum := by
  induction msgs with
  | nil => intro total; simp [addPageSizes]
  | cons m rest ih =>
    intro total
    show addPageSizes (match m.size with | some sz => total + sz | none => total) rest = _
    rw [ih]
    cases hm : m.size with
    | none => simp [hm]
    | some sz =>
      simp [hm]
      ring

/-- C9: the paginated folder sum equals the sum over all pages of the
numeric message sizes, with a missing or non-numeric size contributing
exactly zero (`Option.getD 0`). -/
theorem folder_sum_numeric_sizes (pages : List (List Message)) :
    sumFolderMessagesSize pages
      = (pages.map fun pg => (pg.map fun m => m.size.getD 0).sum).sum := by
  have h : ∀ (ps : List (List Message)) (total : ℚ),
      sumFolderMessagesSize.sumPages total ps
        = total + (ps.map fun pg => (pg.map fun m => m.size.getD 0).sum).sum := by
    intro ps
    induction ps with
    | nil => intro t; simp [sumFolderMessagesSize.sumPages]
    | cons pg rest ih =>
      intro t
      show sumFolderMessagesSize.sumPages (addPageSizes t pg) rest = _
      rw [ih, addPageSizes_eq]
      rw [List.map_cons, List.sum_cons]
      ring
  show sumFolderMessagesSize.sumPages 0 pages = _
  rw [h pages 0]
  ring

/-! ## Single-account scope noninterference (C10) -/

theorem loop_scoped_rel (f : Bool) (a : String)
    (per per' : String → Option RawConf) (u u' : String → Option ℚ)
    (hper : per a = per' a) (husage : u a = u' a) :
    ∀ (l : List Account) (s s' : PassAcc),
      s.topBadgePercent = s'.topBadgePercent →
      s.topBadgeAccountName = s'.topBadgeAccountName →
      s.notifyState a = s'.notifyState a →
      (checkAccountsLoop f (some a) per u l s).topBadgePercent
        = (checkAccountsLoop f (some a) per' u' l s').topBadgePercent
      ∧ (checkAccountsLoop f (some a) per u l s).topBadgeAccountName
        = (checkAccountsLoop f (some a) per' u' l s').topBadgeAccountName
      ∧ (checkAccountsLoop f (some a) per u l s).notifyState a
        = (checkAccountsLoop f (some a) per' u' l s').notifyState a := by
  intro l
  induction l with
  | nil => intro s s' h1 h2 h3; exact ⟨h1, h2, h3⟩
  | cons acc rest ih =>
    intro s s' h1 h2 h3
    unfold checkAccountsLoop
    by_cases hsc : inScope (some a) acc = true
    · have hid : acc.id = a := of_decide_eq_true hsc
      subst hid
      rw [if_pos hsc, if_pos hsc]
      apply ih
      all_goals {
        by_cases hskip : skipConf per acc.id
        case pos =>
          have hskip' : skipConf per' acc.id := by
            unfold skipConf at *
            rw [← hper]
            exact hskip
          rw [checkAccount_skip f per u s acc hskip,
            checkAccount_skip f per' u' s' acc hskip']
          simp [h1, h2, h3]
        case neg =>
          have hskip' : ¬ skipConf per' acc.id := by
            intro hcon
            apply hskip
            unfold skipConf at *
            rw [hper]
            exact hcon
          cases hu : u acc.id with
          | none =>
            have hu' : u' acc.id = none := by rw [← husage]; exact hu
            rw [checkAccount_fail f per u s acc hskip hu,
              checkAccount_fail f per' u' s' acc hskip' hu']
            simp [h1, h2, h3]
          | some used =>
            have hu' : u' acc.id = some used := by rw [← husage]; exact hu
            rw [checkAccount_processed f per u s acc used hskip hu,
              checkAccount_processed f per' u' s' acc used hskip' hu']
            have hpct : pctOf per acc.id used = pctOf per' acc.id used := by
              unfold pctOf
              rw [hper]
            have hth : confThreshold (per acc.id) = confThreshold (per' acc.id) := by
              rw [hper]
            simp [hpct, hth, h1, h2, h3]
      }
    · rw [if_neg hsc, if_neg hsc]
      exact ih s s' h1 h2 h3

theorem loop_no_contrib (f : Bool) (a : String) (per : String → Option RawConf)
    (u : String → Option ℚ) :
    ∀ (l : List Account) (s : PassAcc),
      (∀ acc ∈ l, acc.id = a →
        confActive (per acc.id) = false ∨ confLimit (per acc.id) ≤ 0 ∨ u acc.id = none ∨
        (∃ u0, u acc.id = some u0 ∧ pctOf per acc.id u0 < confThreshold (per acc.id))) →
      s.topBadgePercent = -1 → s.topBadgeAccountName = none →
      (checkAccountsLoop f (some a) per u l s).topBadgePercent = -1
      ∧ (checkAccountsLoop f (some a) per u l s).topBadgeAccountName = none := by
  intro l
  induction l with
  | nil => intro s _ h1 h2; exact ⟨h1, h2⟩
  | cons acc rest ih =>
    intro s hnc h1 h2
    unfold checkAccountsLoop
    by_cases hsc : inScope (some a) acc = true
    · rw [if_pos hsc]
      have hid : acc.id = a := of_decide_eq_true hsc
      have hrest : ∀ acc' ∈ rest, acc'.id = a →
          confActive (per acc'.id) = false ∨ confLimit (per acc'.id) ≤ 0 ∨ u acc'.id = none ∨
          (∃ u0, u acc'.id = some u0 ∧ pctOf per acc'.id u0 < confThreshold (per acc'.id)) :=
        fun acc' h' => hnc acc' (List.mem_cons_of_mem acc h')
      rcases hnc acc (List.mem_cons_self acc rest) hid with hc | hc | hc | ⟨u0, hu0, hbelow⟩
      · have hskip : skipConf per acc.id := Or.inl hc
        rw [checkAccount_skip f per u s acc hskip]
        exact ih _ hrest h1 h2
      · have hskip : skipConf per acc.id := Or.inr hc
        rw [checkAccount_skip f per u s acc hskip]
        exact ih _ hrest h1 h2
      · by_cases hskip : skipConf per acc.id
        · rw [checkAccount_skip f per u s acc hskip]
          exact ih _ hrest h1 h2
        · rw [checkAccount_fail f per u s acc hskip hc]
          exact ih _ hrest h1 h2
      · by_cases hskip : skipConf per acc.id
        · rw [checkAccount_skip f per u s acc hskip]
          exact ih _ hrest h1 h2
        · rw [checkAccount_processed f per u s acc u0 hskip hu0]
          have hbump : ¬ (confThreshold (per acc.id) ≤ pctOf per acc.id u0 ∧
              s.topBadgePercent < ⌊pctOf per acc.id u0⌋) := fun hcon => absurd hcon.1 (not_le.mpr hbelow)
          exact ih _ hrest ((if_neg hbump).trans h1) ((if_neg hbump).trans h2)
    · rw [if_neg hsc]
      exact ih _ (fun acc' h' => hnc acc' (List.mem_cons_of_mem acc h')) h1 h2

/-- C10: a pass scoped to the single account id `a` yields a badge that
depends only on that account: any two runs agreeing on `a`'s
configuration, usage and stored percentage produce the same badge text
and tooltip; and when every entry for `a` is inactive, without a
positive limit, failing enumeration, or below threshold, the badge is
cleared and the tooltip reset to the default. -/
theorem single_account_badge_noninterference (f : Bool) (a : String)
    (per per' : String → Option RawConf) (u u' : String → Option ℚ)
    (accounts : List Account) (st0 st0' : String → ℚ) (ext : String)
    (hper : per a = per' a) (husage : u a = u' a) (hst : st0 a = st0' a) :
    passBadge ext (checkAllAccounts f (some a) per u accounts st0)
      = passBadge ext (checkAllAccounts f (some a) per' u' accounts st0')
    ∧ ((∀ acc ∈ accounts, acc.id = a →
          confActive (per acc.id) = false ∨ confLimit (per acc.id) ≤ 0 ∨ u acc.id = none ∨
          (∃ u0, u acc.id = some u0 ∧ pctOf per acc.id u0 < confThreshold (per acc.id))) →
        passBadge ext (checkAllAccounts f (some a) per u accounts st0)
          = ("", defaultTitle ext)) := by
  constructor
  · have h := loop_scoped_rel f a per per' u u' hper husage accounts
      (initPass st0) (initPass st0') rfl rfl hst
    unfold passBadge checkAllAccounts
    rw [h.1, h.2.1]
  · intro hnc
    have h := loop_no_contrib f a per u accounts (initPass st0) hnc rfl rfl
    unfold passBadge setBadge checkAllAccounts
    rw [h.1, h.2]
    norm_num

/-- Witness for C10: scope limited to "a1" (below threshold at 70%); a
second run differs only in "a2"'s usage (990 vs 0); badges agree and are
cleared. -/
theorem single_account_badge_noninterference_witness :
    passBadge "MFA" (checkAllAccounts false (some "a1")
        (fun _ => some { limitBytes := some 1000 })
        (fun id => if id = "a2" then some 990 else some 700)
        [⟨"a1", "A"⟩, ⟨"a2", "B"⟩] (fun _ => 0))
      = passBadge "MFA" (checkAllAccounts false (some "a1")
        (fun _ => some { limitBytes := some 1000 })
        (fun id => if id = "a2" then some 0 else some 700)
        [⟨"a1", "A"⟩, ⟨"a2", "B"⟩] (fun _ => 0))
    ∧ passBadge "MFA" (checkAllAccounts false (some "a1")
        (fun _ => some { limitBytes := some 1000 })
        (fun id => if id = "a2" then some 990 else some 700)
        [⟨"a1", "A"⟩, ⟨"a2", "B"⟩] (fun _ => 0))
      = ("", defaultTitle "MFA") := by
  have h := single_account_badge_noninterference false "a1"
    (fun _ => some { limitBytes := some 1000 }) (fun _ => some { limitBytes := some 1000 })
    (fun id => if id = "a2" then some 990 else some 700)
    (fun id => if id = "a2" then some 0 else some 700)
    [⟨"a1", "A"⟩, ⟨"a2", "B"⟩] (fun _ => 0) (fun _ => 0) "MFA"
    rfl (by decide) rfl
  refine ⟨h.1, h.2 ?_⟩
  intro acc hacc hid
  rcases List.mem_cons.mp hacc with heq | hacc'
  · subst heq
    refine Or.inr (Or.inr (Or.inr ⟨700, by decide, ?_⟩))
    norm_num [pctOf, confLimit, confThreshold, MFA_DEFAULT_THRESHOLD_PCT]
  · rw [List.mem_singleton.mp hacc'] at hid
    exact absurd hid (by decide)
